import Mathlib

/-!
# Verification of the rotated-box geometry / assignment engine of R-YOLOv4

Shallow embedding of the core numeric routines of the repository
(`lib/post_process.py`, `lib/loss.py`) over exact rational arithmetic.
Floating-point values are modelled by `ℚ`; the small additive guards
(`1e-15`) of the source are kept as the exact rational `1/10^15`.

Angles: the post-processing geometry never uses the raw angle value of a
box numerically — it only feeds it through `cos`/`sin` when building the
rotated corner polygon (`cv.boxPoints`).  A rotated box is therefore
represented there by `(x, y, w, h, c, s)` where `(c, s) = (cos θ, sin θ)`
of the stored angle column.  The loss-side code does use raw angle values
(subtraction, comparison against `π/12`), so there angles stay plain
rationals and the transcendental routines the code calls (`cos`, `atan`,
`exp`, `log`, the constant `π`) are threaded as an explicit record of
rational functions standing for the float library routines.
-/

namespace RYolo

/-- A planar point with rational coordinates. -/
abbrev Pt := ℚ × ℚ

/-- Cross product of `a - o` and `b - o`; positive iff `o a b` is a
counterclockwise turn. -/
def cross (o a b : Pt) : ℚ :=
  (a.1 - o.1) * (b.2 - o.2) - (a.2 - o.2) * (b.1 - o.1)

/-- The (cyclically consecutive) edge list of a polygon given by its
vertex list. -/
def polyEdges (ps : List Pt) : List (Pt × Pt) :=
  ps.zip (ps.rotate 1)

/-- Twice the signed area of a polygon (shoelace formula). -/
def shoelace2 (ps : List Pt) : ℚ :=
  ((polyEdges ps).map (fun e => e.1.1 * e.2.2 - e.2.1 * e.1.2)).sum

/-- Absolute area of a polygon. -/
def polyArea (ps : List Pt) : ℚ :=
  |shoelace2 ps| / 2

/-- Intersection of the segment `p q` with the oriented line through
`a b` (used by the polygon clipper; callers only invoke it when the
segment properly crosses the line). -/
def lineInter (a b p q : Pt) : Pt :=
  let d1 := cross a b p
  let d2 := cross a b q
  let t := d1 / (d1 - d2)
  (p.1 + t * (q.1 - p.1), p.2 + t * (q.2 - p.2))

/-- Is `p` on the closed left side of the oriented line `a → b`?  For a
counterclockwise convex clip polygon this is the inside test. -/
def insideEdge (a b p : Pt) : Bool :=
  decide (0 ≤ cross a b p)

/-- One Sutherland–Hodgman clipping step: clip `poly` against the closed
half-plane to the left of the oriented line `a → b`. -/
def clipEdge (a b : Pt) (poly : List Pt) : List Pt :=
  (polyEdges poly).foldl
    (fun acc se =>
      let s := se.1
      let e := se.2
      if insideEdge a b e then
        if insideEdge a b s then acc ++ [e]
        else acc ++ [lineInter a b s e, e]
      else
        if insideEdge a b s then acc ++ [lineInter a b s e]
        else acc)
    []

/-- Intersection polygon of a subject polygon with a convex,
counterclockwise clip polygon (Sutherland–Hodgman; this is the exact
convex-polygon intersection the source delegates to `shapely`). -/
def polyClip (subject clip : List Pt) : List Pt :=
  (polyEdges clip).foldl (fun acc ab => clipEdge ab.1 ab.2 acc) subject

/-- Area of the intersection of two convex polygons. -/
def interArea (p q : List Pt) : ℚ :=
  polyArea (polyClip p q)

/-- A rotated box as handled by `post_process.py`: center `(x, y)`,
width `w`, height `h`, and the angle column represented by its cosine
and sine `(c, s)`. -/
structure RBox where
  x : ℚ
  y : ℚ
  w : ℚ
  h : ℚ
  c : ℚ
  s : ℚ
  deriving DecidableEq, Repr

/-- `rbox2polygon` of `post_process.py`: the four corners
`(±w/2, ±h/2)` rotated by the box angle and translated to the center
(`cv.boxPoints`).  Listed in counterclockwise order for a genuine angle
(`c² + s² = 1`); the clockwise image-coordinate convention of OpenCV is
the mirror image and has the same areas and intersections. -/
def rbox2polygon (b : RBox) : List Pt :=
  [ (b.x + (b.w / 2 * b.c - b.h / 2 * b.s), b.y + (b.w / 2 * b.s + b.h / 2 * b.c)),
    (b.x + (-(b.w / 2) * b.c - b.h / 2 * b.s), b.y + (-(b.w / 2) * b.s + b.h / 2 * b.c)),
    (b.x + (-(b.w / 2) * b.c - -(b.h / 2) * b.s), b.y + (-(b.w / 2) * b.s + -(b.h / 2) * b.c)),
    (b.x + (b.w / 2 * b.c - -(b.h / 2) * b.s), b.y + (b.w / 2 * b.s + -(b.h / 2) * b.c)) ]

/-- Model of `shapely`'s `is_valid` on the rectangle rings produced by
`rbox2polygon`: a ring that collapses to zero area (a degenerate box,
`w = 0` or `h = 0`) is topologically invalid (its boundary retraces
itself / has fewer than three distinct points); every positive-area
rectangle ring is simple and valid. -/
def polyValid (ps : List Pt) : Bool :=
  decide (polyArea ps ≠ 0)

/-- `get_iou` of `post_process.py`: intersection area over union area of
two polygons; disjoint (or merely touching) polygons give `0`, exactly
as the `intersects` branch of the source. -/
def get_iou (p q : List Pt) : ℚ :=
  let inter := interArea p q
  if 0 < inter then inter / (polyArea p + polyArea q - inter) else 0

/-- `skewiou` of `post_process.py`: the exact polygon-overlap ratio of
`box1` against each box of `box2`, in order; raises the geometry error
of the source at the first processed pair with an invalid polygon. -/
def skewiou (box1 : RBox) : List RBox → Except String (List ℚ)
  | [] => Except.ok []
  | b :: rest =>
    if polyValid (rbox2polygon box1) && polyValid (rbox2polygon b) then do
      let tail ← skewiou box1 rest
      Except.ok (get_iou (rbox2polygon box1) (rbox2polygon b) :: tail)
    else Except.error "something went wrong in skew iou"

/-- Pointwise value of `skewiou` on one pair of (valid) boxes. -/
def skewOne (b1 b2 : RBox) : ℚ :=
  get_iou (rbox2polygon b1) (rbox2polygon b2)

/-- `xywh2xyxy` of `post_process.py` restricted to one box: corner form
`(x1, y1, x2, y2)` of the axis-aligned reading of `(x, y, w, h)`. -/
def xywh2xyxy (b : RBox) : ℚ × ℚ × ℚ × ℚ :=
  (b.x - b.w / 2, b.y - b.h / 2, b.x + b.w / 2, b.y + b.h / 2)

/-- The axis-aligned IoU computed inside `iou` of `post_process.py`:
rotation is ignored, corners are clamped, and the denominator carries
the `1e-15` guard. -/
def aaIou (b1 b2 : RBox) : ℚ :=
  let c1 := xywh2xyxy b1
  let c2 := xywh2xyxy b2
  let interW := max ((min c1.2.2.1 c2.2.2.1) - (max c1.1 c2.1)) 0
  let interH := max ((min c1.2.2.2 c2.2.2.2) - (max c1.2.1 c2.2.1)) 0
  let inter := interW * interH
  let union := b1.w * b1.h + b2.w * b2.h - inter
  inter / (union + 1 / 10 ^ 15)

/-- The axis-aligned prefilter of `iou` in `post_process.py`:
`aa_iou > 0.3`. -/
def gateTest (b1 b2 : RBox) : Bool :=
  decide (3 / 10 < aaIou b1 b2)

/-- Scatter of the sub-batch skew-IoU results back into the full
boolean vector: positions passing the prefilter consume the next
skew-IoU value and compare it against the threshold, all other
positions keep their initial `False`. -/
def scatterFlags (b1 : RBox) (nms : ℚ) : List RBox → List ℚ → List Bool
  | [], _ => []
  | b :: bs, svs =>
    if gateTest b1 b then
      match svs with
      | s :: rest => decide (nms < s) :: scatterFlags b1 nms bs rest
      | [] => false :: scatterFlags b1 nms bs []
    else false :: scatterFlags b1 nms bs svs

/-- `iou` of `post_process.py`: the gated overlap test.  The exact
skew-IoU is evaluated only on the candidates whose axis-aligned
prefilter exceeds `0.3`; every other candidate keeps the initial
all-`False` entry. -/
def iou (box1 : RBox) (box2 : List RBox) (nms_thres : ℚ) : Except String (List Bool) :=
  let sub := box2.filter (fun b => gateTest box1 b)
  if sub.isEmpty then Except.ok (box2.map (fun _ => false))
  else do
    let svs ← skewiou box1 sub
    Except.ok (scatterFlags box1 nms_thres box2 svs)

/-! ## Rotated NMS (`post_process` of `post_process.py`)

A candidate row after the decode step: `(x, y, w, h, angle, conf,
class probabilities)`, the angle again carried as its cosine/sine pair
(nothing in the NMS stage uses the raw angle value numerically). -/

structure PredRow where
  x : ℚ
  y : ℚ
  w : ℚ
  h : ℚ
  ca : ℚ
  sa : ℚ
  cf : ℚ
  cls : List ℚ
  deriving DecidableEq, Repr

/-- The `(x, y, w, h, ca, sa)` geometry of a candidate row (the
`detect[:, :5]` slice handed to the overlap test). -/
def PredRow.box (r : PredRow) : RBox :=
  ⟨r.x, r.y, r.w, r.h, r.ca, r.sa⟩

/-- First maximum of a list, tail-recursive accumulator. -/
def argmaxAux : List ℚ → ℕ → ℕ → ℚ → ℕ
  | [], _, bi, _ => bi
  | v :: rest, i, bi, bv =>
    if bv < v then argmaxAux rest (i + 1) i v else argmaxAux rest (i + 1) bi bv

/-- Index of the first maximal element of a (nonempty) list; `0` for an
empty list.  (`torch.max(…, dim)`: lowest index wins on ties.) -/
def firstArgmax : List ℚ → ℕ
  | [] => 0
  | v :: rest => argmaxAux rest 1 0 v

/-- Maximum of a list of rationals, `0` for the empty list. -/
def maxListQ : List ℚ → ℚ
  | [] => 0
  | v :: rest => rest.foldl max v

/-- The sort key of the NMS stage: object confidence times the best
class probability. -/
def score (r : PredRow) : ℚ :=
  r.cf * maxListQ r.cls

/-- The predicted class label of a row: index of the first maximal
class probability. -/
def labelOf (r : PredRow) : ℕ :=
  firstArgmax r.cls

/-- Stable descending insertion by a rational key (the embedding of
`argsort(descending=True)` picks a stable order). -/
def insertDesc (key : PredRow → ℚ) (a : PredRow) : List PredRow → List PredRow
  | [] => [a]
  | b :: bs => if key b < key a then a :: b :: bs else b :: insertDesc key a bs

/-- Stable descending sort by a rational key. -/
def sortDesc (key : PredRow → ℚ) (l : List PredRow) : List PredRow :=
  l.foldr (insertDesc key) []

/-- Boolean-mask selection `l[m]` over parallel lists. -/
def maskSelect {α : Type} : List α → List Bool → List α
  | [], _ => []
  | _ :: _, [] => []
  | a :: l, b :: m => if b then a :: maskSelect l m else maskSelect l m

/-- The merge step of the NMS loop: the kept box's `(x, y, w, h)`
become the confidence-weighted average of `best` (weighted by its own
confidence) and the suppressed boxes, normalized by the total weight;
every other field of `best` is untouched. -/
def mergeBest (best : PredRow) (thrown : List PredRow) : PredRow :=
  let wsum := (thrown.map (fun r => r.cf)).sum
  let d := best.cf + wsum
  { best with
    x := (best.x * best.cf + (thrown.map (fun r => r.cf * r.x)).sum) / d
    y := (best.y * best.cf + (thrown.map (fun r => r.cf * r.y)).sum) / d
    w := (best.w * best.cf + (thrown.map (fun r => r.cf * r.w)).sum) / d
    h := (best.h * best.cf + (thrown.map (fun r => r.cf * r.h)).sum) / d }

/-- The greedy suppress-and-merge loop of `post_process` for one class
group, structured on an explicit recursion bound (the survivor set
shrinks at every step, so any bound of at least the list length yields
the loop's behaviour; the bound-`0` arm is unreachable then): repeatedly
take the highest-scoring remaining candidate, test the rest with the
gated overlap test, merge the suppressed ones into the kept box, and
recurse on the survivors. -/
def nmsLoopF (n : ℚ) : ℕ → List PredRow → Except String (List PredRow)
  | _, [] => Except.ok []
  | 0, _ :: _ => Except.ok []
  | fuel + 1, best :: rest =>
    if rest.isEmpty then Except.ok [best]
    else do
      let flags ← iou best.box (rest.map PredRow.box) n
      let tail ← nmsLoopF n fuel (maskSelect rest (flags.map (fun b => !b)))
      Except.ok (mergeBest best (maskSelect rest flags) :: tail)

/-- The greedy NMS loop with a sufficient recursion bound. -/
def nmsLoop (n : ℚ) (l : List PredRow) : Except String (List PredRow) :=
  nmsLoopF n l.length l

/-- Ascending insertion over naturals. -/
def insertAscN (a : ℕ) : List ℕ → List ℕ
  | [] => [a]
  | b :: bs => if a ≤ b then a :: b :: bs else b :: insertAscN a bs

/-- Collapse runs of equal values in a sorted list. -/
def dedupSorted : List ℕ → List ℕ
  | [] => []
  | [a] => [a]
  | a :: b :: rest =>
    if a = b then dedupSorted (b :: rest) else a :: dedupSorted (b :: rest)

/-- Sorted list of the distinct values of a list of naturals
(`torch.unique` returns sorted unique values). -/
def uniqueSorted (l : List ℕ) : List ℕ :=
  dedupSorted (l.foldr insertAscN [])

/-- Effectful map over `Except` in list order (the per-class iteration
of the NMS stage). -/
def mapMExcept {α β : Type} (f : α → Except String β) : List α → Except String (List β)
  | [] => Except.ok []
  | a :: l => do
    let b ← f a
    let tail ← mapMExcept f l
    Except.ok (b :: tail)

/-- The per-image body of `post_process` after the decode step: filter
by confidence, sort descending by score, cap at `max_nms = 500`,
partition by predicted class, run the greedy NMS loop per class, and
cap the concatenated result at `max_det = 300`. -/
def processImage (rows : List PredRow) (conf_thres nms_thres : ℚ) :
    Except String (List PredRow) := do
  let filtered := rows.filter (fun r => decide (conf_thres ≤ r.cf))
  if filtered.isEmpty then Except.ok []
  else
    let capped := (sortDesc score filtered).take 500
    let labels := uniqueSorted (capped.map labelOf)
    let groups ← mapMExcept
      (fun lab => nmsLoop nms_thres (capped.filter (fun r => decide (labelOf r = lab))))
      labels
    Except.ok (groups.flatten.take 300)

/-- A raw prediction row before the decode step of `post_process`:
the source drops column 5 of the raw tensor and rescales `(x, y, w, h)`
by `img_size / grid`. -/
structure RawRow where
  x : ℚ
  y : ℚ
  w : ℚ
  h : ℚ
  ca : ℚ
  sa : ℚ
  dropped : ℚ
  cf : ℚ
  cls : List ℚ
  deriving DecidableEq, Repr

/-- Decode of one scale in `post_process`: rescale the box coordinates
to the image frame and drop column 5. -/
def decodeScale (img_size : ℚ) (scale : ℚ × List RawRow) : List PredRow :=
  scale.2.map (fun r =>
    let f := img_size / scale.1
    ⟨r.x * f, r.y * f, r.w * f, r.h * f, r.ca, r.sa, r.cf, r.cls⟩)

/-- `post_process` for a single image: decode and concatenate all
scales, then run the per-image confidence filter / NMS pipeline. -/
def post_process (scales : List (ℚ × List RawRow)) (img_size conf_thres nms_thres : ℚ) :
    Except String (List PredRow) :=
  processImage (scales.map (decodeScale img_size)).flatten conf_thres nms_thres

/-! ## CIoU loss (`bbox_xywha_ciou` of `lib/loss.py`)

The loss code calls the float library's transcendental routines
(`torch.cos`, `torch.atan`, `torch.exp`, the log inside
`binary_cross_entropy`, and the constant `math.pi`).  They are threaded
through the embedding as an explicit record of rational functions; the
theorems quantify over the record, adding only the facts about the real
functions a statement actually needs (e.g. `cos 0 = 1`). -/

structure TrigOps where
  rcos : ℚ → ℚ
  ratan : ℚ → ℚ
  rexp : ℚ → ℚ
  rlog : ℚ → ℚ
  rpi : ℚ

/-- An oriented box `(x, y, w, h, a)` with a raw angle value, as rows of
the loss-side tensors. -/
structure B5 where
  x : ℚ
  y : ℚ
  w : ℚ
  h : ℚ
  a : ℚ
  deriving DecidableEq, Repr

/-- `torch.clamp(v, min=lo, max=hi)`. -/
def clampQ (v lo hi : ℚ) : ℚ :=
  min (max v lo) hi

/-- One row of `bbox_xywha_ciou` of `lib/loss.py`: corner conversion,
axis-aligned intersection / union / enclosing-diagonal terms with the
`1e-15` guards, the aspect-ratio term `v` with its detached `alpha`,
the clamped CIoU value, and the returned pair
`(iou * |cos(a_pred - a_target)|, ciou)`. -/
def ciouPointwise (T : TrigOps) (p t : B5) : ℚ × ℚ :=
  let px1 := p.x - p.w / 2
  let py1 := p.y - p.h / 2
  let px2 := p.x + p.w / 2
  let py2 := p.y + p.h / 2
  let tx1 := t.x - t.w / 2
  let ty1 := t.y - t.h / 2
  let tx2 := t.x + t.w / 2
  let ty2 := t.y + t.h / 2
  let w1 := px2 - px1
  let h1 := py2 - py1
  let w2 := tx2 - tx1
  let h2 := ty2 - ty1
  let area1 := w1 * h1
  let area2 := w2 * h2
  let cx1 := (px2 + px1) / 2
  let cy1 := (py2 + py1) / 2
  let cx2 := (tx2 + tx1) / 2
  let cy2 := (ty2 + ty1) / 2
  let interW := max (min px2 tx2 - max px1 tx1) 0
  let interH := max (min py2 ty2 - max py1 ty1) 0
  let interArea := interW * interH
  let interDiag := (cx2 - cx1) ^ 2 + (cy2 - cy1) ^ 2
  let outerW := max (max px2 tx2 - min px1 tx1) 0
  let outerH := max (max py2 ty2 - min py1 ty1) 0
  let outerDiag := outerW ^ 2 + outerH ^ 2
  let union := area1 + area2 - interArea
  let u := interDiag / (outerDiag + 1 / 10 ^ 15)
  let iou := interArea / (union + 1 / 10 ^ 15)
  let v := 4 / T.rpi ^ 2 * (T.ratan (w2 / h2) - T.ratan (w1 / h1)) ^ 2
  let S := 1 - iou
  let alpha := v / (S + v)
  let ciou := clampQ (iou - (u + alpha * v)) (-1) 1
  let angleFactor := |T.rcos (p.a - t.a)|
  (iou * angleFactor, ciou)

/-- `bbox_xywha_ciou` of `lib/loss.py` on two batches of boxes; `none`
models the shape assertion on unequal batch lengths. -/
def bbox_xywha_ciou (T : TrigOps) (pred target : List B5) : Option (List (ℚ × ℚ)) :=
  if pred.length = target.length then
    some ((pred.zip target).map (fun pt => ciouPointwise T pt.1 pt.2))
  else none

/-! Spec-side reference definitions (written from the words of the
specification, to be compared with the embedded code). -/

/-- Written from spec §4.1: axis-aligned IoU — "converts two oriented
boxes to centered rectangles ignoring rotation, computes standard IoU
via min/max corner clamping with a small epsilon (1e-15) denominator
guard". -/
def specAAIou (b1 b2 : B5) : ℚ :=
  let l1 := b1.x - b1.w / 2
  let r1 := b1.x + b1.w / 2
  let bo1 := b1.y - b1.h / 2
  let t1 := b1.y + b1.h / 2
  let l2 := b2.x - b2.w / 2
  let r2 := b2.x + b2.w / 2
  let bo2 := b2.y - b2.h / 2
  let t2 := b2.y + b2.h / 2
  let iw := max (min r1 r2 - max l1 l2) 0
  let ih := max (min t1 t2 - max bo1 bo2) 0
  let inter := iw * ih
  let union := b1.w * b1.h + b2.w * b2.h - inter
  inter / (union + 1 / 10 ^ 15)

/-- Written from spec §4.1: the exact oriented-overlap ratio of two
rotated boxes — corner polygon from `(±w/2, ±h/2)` rotated and
translated, then `intersection_area / union_area` with
`union = area1 + area2 - intersection` via exact convex-polygon
intersection. -/
def specSkewIoU (b1 b2 : RBox) : ℚ :=
  let p1 := rbox2polygon b1
  let p2 := rbox2polygon b2
  let inter := interArea p1 p2
  inter / (polyArea p1 + polyArea p2 - inter)

/-- Written from spec §4.2: the CIoU regression term —
`u = center_distance² / (enclosing_diagonal² + 1e-15)`,
`v = (4/π²)(atan(w_t/h_t) − atan(w_p/h_p))²`,
`alpha = v/((1−iou)+v)`, and `ciou = iou − (u + alpha·v)` clamped to
`[−1, 1]`, with the intersection/union/enclosing terms of standard CIoU
on the corner forms. -/
def specCIoU (T : TrigOps) (p t : B5) : ℚ :=
  let iou := specAAIou p t
  let cdist := (t.x - p.x) ^ 2 + (t.y - p.y) ^ 2
  let ow := max (max (p.x + p.w / 2) (t.x + t.w / 2) - min (p.x - p.w / 2) (t.x - t.w / 2)) 0
  let oh := max (max (p.y + p.h / 2) (t.y + t.h / 2) - min (p.y - p.h / 2) (t.y - t.h / 2)) 0
  let u := cdist / (ow ^ 2 + oh ^ 2 + 1 / 10 ^ 15)
  let v := 4 / T.rpi ^ 2 * (T.ratan (t.w / t.h) - T.ratan (p.w / p.h)) ^ 2
  let alpha := v / ((1 - iou) + v)
  clampQ (iou - (u + alpha * v)) (-1) 1

/-! ## Target assignment (`build_targets` of `lib/loss.py`) -/

/-- An anchor template `(w, h, angle)` of one detection scale. -/
structure Anchor3 where
  w : ℚ
  h : ℚ
  a : ℚ
  deriving DecidableEq, Repr

instance : Inhabited Anchor3 := ⟨⟨0, 0, 0⟩⟩

/-- One ground-truth row `[batch_index, class_id, x, y, w, h, a]` with
grid-normalized coordinates, as consumed by `build_targets`. -/
structure TRow where
  b : ℕ
  label : ℕ
  x : ℚ
  y : ℚ
  w : ℚ
  h : ℚ
  a : ℚ
  deriving DecidableEq, Repr

/-- Static configuration of one `build_targets` call: tensor sizes,
ignore threshold and stride. -/
structure BTCfg where
  nB : ℕ
  nA : ℕ
  nG : ℕ
  nC : ℕ
  ignore_thresh : ℚ
  stride : ℚ

/-- A cell index `(batch, anchor, grid_y, grid_x)`. -/
abbrev Idx := ℕ × ℕ × ℕ × ℕ

/-- Point update of a tensor modelled as a function (the in-place
scatter assignment `tensor[b, a, j, i] = v`; folding over the target
list makes later writes win, as on CPU). -/
def upd {β γ : Type} [DecidableEq β] (f : β → γ) (k : β) (v : γ) : β → γ :=
  fun p => if p = k then v else f p

/-- Modelled from the spec: `anchor_wh_iou` (defined in a repository
utility module that is not part of the provided sources).  Spec §4.3:
"compute `anchor_iou = aa_iou(anchor_wh, gt_wh) · |cos(anchor_angle −
gt_angle)|`" with §4.1's axis-aligned IoU and `1e-15` guard; for pure
width/height pairs the clamped intersection is
`min(w1,w2) · min(h1,h2)`. -/
def anchor_wh_iou (aw ah gw gh : ℚ) : ℚ :=
  let inter := min aw gw * min ah gh
  inter / (aw * ah + gw * gh - inter + 1 / 10 ^ 15)

/-- The ground-truth box scaled into grid-cell units
(`target_boxes = cat(target[:, 2:6] * nG, target[:, 6:])`). -/
def tbox (cfg : BTCfg) (t : TRow) : B5 :=
  ⟨t.x * cfg.nG, t.y * cfg.nG, t.w * cfg.nG, t.h * cfg.nG, t.a⟩

/-- The combined anchor score of `build_targets`:
`anchor_wh_iou(anchor, gt) * |cos(anchor_angle - gt_angle)|`. -/
def ariou (T : TrigOps) (anc : Anchor3) (gt : B5) : ℚ :=
  anchor_wh_iou anc.w anc.h gt.w gt.h * |T.rcos (anc.a - gt.a)|

/-- The raw angle offset `|anchor_angle - gt_angle|`. -/
def angOffset (anc : Anchor3) (gt : B5) : ℚ :=
  |anc.a - gt.a|

/-- Truncation toward zero, the `.long()` cast of the source. -/
def truncQ (q : ℚ) : ℤ :=
  if 0 ≤ q then ⌊q⌋ else ⌈q⌉

/-- A grid coordinate: truncate, then clamp into `[0, nG - 1]`. -/
def gridClamp (cfg : BTCfg) (q : ℚ) : ℕ :=
  Int.toNat (min (max (truncQ q) 0) (cfg.nG - 1))

/-- The best-scoring anchor index for a ground truth (`arious.max(0)`,
first maximal index on ties). -/
def bestN (T : TrigOps) (anchors : List Anchor3) (cfg : BTCfg) (t : TRow) : ℕ :=
  firstArgmax (anchors.map (fun anc => ariou T anc (tbox cfg t)))

/-- `gi` of the source for one ground truth. -/
def giOf (cfg : BTCfg) (t : TRow) : ℕ :=
  gridClamp cfg (tbox cfg t).x

/-- `gj` of the source for one ground truth. -/
def gjOf (cfg : BTCfg) (t : TRow) : ℕ :=
  gridClamp cfg (tbox cfg t).y

/-- The `(batch, best anchor, gj, gi)` cell claimed by a ground truth. -/
def keyOf (T : TrigOps) (anchors : List Anchor3) (cfg : BTCfg) (t : TRow) : Idx :=
  (t.b, bestN T anchors cfg t, gjOf cfg t, giOf cfg t)

/-- One pass of the ignore-band loop for one ground truth: clear
`noobj_mask[b, a, gj, gi]` for every anchor index satisfying `P`. -/
def clearAnchors (cfg : BTCfg) (t : TRow) (P : ℕ → Bool) (f : Idx → Bool) : Idx → Bool :=
  (List.range cfg.nA).foldl
    (fun g a => if P a then upd g (t.b, a, gjOf cfg t, giOf cfg t) false else g) f

/-- First ignore-band condition: `anchor_ious > self.ignore_thresh`. -/
def ignoreCond1 (T : TrigOps) (anchors : List Anchor3) (cfg : BTCfg) (t : TRow) (a : ℕ) : Bool :=
  decide (cfg.ignore_thresh < ariou T (anchors.getD a default) (tbox cfg t))

/-- Second ignore-band condition:
`(anchor_ious > 0.4) & (angle_offset < pi / 12)`. -/
def ignoreCond2 (T : TrigOps) (anchors : List Anchor3) (cfg : BTCfg) (t : TRow) (a : ℕ) : Bool :=
  decide (2 / 5 < ariou T (anchors.getD a default) (tbox cfg t)) &&
    decide (angOffset (anchors.getD a default) (tbox cfg t) < T.rpi / 12)

/-- The result tensors of `build_targets`, modelled as functions of the
cell index. -/
structure BTResult where
  iou_scores : Idx → ℚ
  skew_iou : Idx → ℚ
  ciou_loss : Idx → ℚ
  class_mask : Idx → ℚ
  obj_mask : Idx → Bool
  noobj_mask : Idx → Bool
  ta : Idx → ℚ
  tcls : Idx → ℕ → ℚ
  tconf : Idx → ℚ

/-- The per-ground-truth pair `(iou, ciou)` of line 221 of
`lib/loss.py`: `bbox_xywha_ciou(pred_boxes[b, best_n, gj, gi],
target_boxes)`, taken pointwise. -/
def btPair (T : TrigOps) (anchors : List Anchor3) (cfg : BTCfg)
    (predBoxes : Idx → B5) (t : TRow) : ℚ × ℚ :=
  ciouPointwise T (predBoxes (keyOf T anchors cfg t)) (tbox cfg t)

/-- `bbox_loss_scale = 2.0 - 1.0 * gw * gh / (stride * nG)²`. -/
def bboxLossScale (cfg : BTCfg) (t : TRow) : ℚ :=
  2 - 1 * (tbox cfg t).w * (tbox cfg t).h / (cfg.stride * cfg.nG) ^ 2

/-- The value stored into the `skew_iou` tensor:
`exp(1 - iou) - 1`. -/
def storedSkew (T : TrigOps) (anchors : List Anchor3) (cfg : BTCfg)
    (predBoxes : Idx → B5) (t : TRow) : ℚ :=
  T.rexp (1 - (btPair T anchors cfg predBoxes t).1) - 1

/-- The value stored into the `ciou_loss` tensor:
`bbox_loss_scale * (1 - ciou)`. -/
def storedCiou (T : TrigOps) (anchors : List Anchor3) (cfg : BTCfg)
    (predBoxes : Idx → B5) (t : TRow) : ℚ :=
  bboxLossScale cfg t * (1 - (btPair T anchors cfg predBoxes t).2)

/-- `build_targets` of `lib/loss.py`: scatter the per-ground-truth
masks, targets and diagnostics into dense tensors (functions of the
cell index), target by target in list order. -/
def build_targets (T : TrigOps) (anchors : List Anchor3) (cfg : BTCfg)
    (predBoxes : Idx → B5) (predCls : Idx → List ℚ) (targets : List TRow) : BTResult :=
  let key := keyOf T anchors cfg
  let obj_mask := targets.foldl (fun f t => upd f (key t) true) (fun _ => false)
  let noobj1 := targets.foldl (fun f t => upd f (key t) false) (fun _ => true)
  let noobj_mask := targets.foldl
    (fun f t =>
      clearAnchors cfg t (ignoreCond2 T anchors cfg t)
        (clearAnchors cfg t (ignoreCond1 T anchors cfg t) f))
    noobj1
  let ta := targets.foldl
    (fun f t => upd f (key t) ((tbox cfg t).a - (anchors.getD (bestN T anchors cfg t) default).a))
    (fun _ => 0)
  let tcls := targets.foldl
    (fun f t => fun p l => if p = key t ∧ l = t.label then 1 else f p l)
    (fun _ _ => 0)
  let skew_iou := targets.foldl
    (fun f t => upd f (key t) (storedSkew T anchors cfg predBoxes t)) (fun _ => 0)
  let ciou_loss := targets.foldl
    (fun f t => upd f (key t) (storedCiou T anchors cfg predBoxes t)) (fun _ => 0)
  let iou_scores := targets.foldl
    (fun f t => upd f (key t) (btPair T anchors cfg predBoxes t).1) (fun _ => 0)
  let class_mask := targets.foldl
    (fun f t =>
      upd f (key t) (if firstArgmax (predCls (key t)) = t.label then 1 else 0))
    (fun _ => 0)
  { iou_scores := iou_scores
    skew_iou := skew_iou
    ciou_loss := ciou_loss
    class_mask := class_mask
    obj_mask := obj_mask
    noobj_mask := noobj_mask
    ta := ta
    tcls := tcls
    tconf := fun p => if obj_mask p then 1 else 0 }

/-! ## Loss aggregation (`ComputeLoss.__call__` of `lib/loss.py`) -/

/-- `F.smooth_l1_loss` on one element. -/
def smoothL1 (x y : ℚ) : ℚ :=
  let d := |x - y|
  if d < 1 then d ^ 2 / 2 else d - 1 / 2

/-- `F.binary_cross_entropy` on one element; PyTorch clamps the log
outputs from below at `-100`. -/
def bceElem (T : TrigOps) (x t : ℚ) : ℚ :=
  -(t * max (T.rlog x) (-100) + (1 - t) * max (T.rlog (1 - x)) (-100))

/-- One element of `FocalLoss.forward` with the defaults used at the
call site (`FocalLoss(reduction=self.reduction)`: `alpha = 0.25`,
`gamma = 2`). -/
def focalElem (T : TrigOps) (x t : ℚ) : ℚ :=
  let pt := t * x + (1 - t) * (1 - x)
  let alphaFactor := t * (1 / 4) + (1 - t) * (1 - 1 / 4)
  bceElem T x t * (alphaFactor * ((1 - pt) ^ 2))

/-- Mean of a list of rationals (`0` for the empty list; the reduction
of the loss terms is modelled as `'mean'`). -/
def meanQ (l : List ℚ) : ℚ :=
  l.sum / l.length

/-- All cell indices of one scale's prediction tensor. -/
def allCells (cfg : BTCfg) : List Idx :=
  (List.range cfg.nB).flatMap (fun b =>
    (List.range cfg.nA).flatMap (fun a =>
      (List.range cfg.nG).flatMap (fun j =>
        (List.range cfg.nG).map (fun i => (b, a, j, i)))))

/-- The loss coefficients of the aggregator. -/
structure LossHyp where
  lambda_coord : ℚ
  lambda_conf_scale : ℚ
  lambda_cls_scale : ℚ

/-- The named sub-losses and the total returned by the aggregator. -/
structure LossOut where
  reg_loss : ℚ
  conf_loss : ℚ
  cls_loss : ℚ
  loss : ℚ
  deriving DecidableEq, Repr

/-- `ComputeLoss.__call__` of `lib/loss.py` for one scale: build the
targets, then combine the regression term (detached
`skew_iou / (angle_loss + ciou_loss)` magnitude times the vector), the
focal confidence terms over the object / no-object partitions, and the
classification cross-entropy, each scaled by its coefficient. -/
def computeLoss (T : TrigOps) (hyp : LossHyp) (anchors : List Anchor3) (cfg : BTCfg)
    (predBoxes : Idx → B5) (predCls : Idx → List ℚ) (predConf : Idx → ℚ)
    (targets : List TRow) : LossOut :=
  let r := build_targets T anchors cfg predBoxes predCls targets
  let cells := allCells cfg
  let objCells := cells.filter (fun p => r.obj_mask p)
  let noobjCells := cells.filter (fun p => r.noobj_mask p)
  let regRaw :=
    if targets.isEmpty then 0
    else
      meanQ (objCells.map (fun p =>
        let angleLoss := smoothL1 ((predBoxes p).a) (r.ta p)
        let regVector := angleLoss + r.ciou_loss p
        let regMagnitude := r.skew_iou p / regVector
        regMagnitude * regVector))
  let confObj :=
    if targets.isEmpty then 0
    else meanQ (objCells.map (fun p => focalElem T (predConf p) (r.tconf p)))
  let confNoobj := meanQ (noobjCells.map (fun p => focalElem T (predConf p) (r.tconf p)))
  let clsRaw :=
    if targets.isEmpty then 0
    else
      meanQ ((objCells.flatMap (fun p => (List.range cfg.nC).map (fun l => (p, l)))).map
        (fun pl => bceElem T ((predCls pl.1).getD pl.2 0) (r.tcls pl.1 pl.2)))
  let reg_loss := hyp.lambda_coord * regRaw
  let conf_loss := hyp.lambda_conf_scale * (confObj + confNoobj)
  let cls_loss := hyp.lambda_cls_scale * clsRaw
  { reg_loss := reg_loss
    conf_loss := conf_loss
    cls_loss := cls_loss
    loss := reg_loss + conf_loss + cls_loss }

/-! ## Concrete test inputs for the closed instances -/

/-- Written from the claim of spec §4.1: the ungated suppression test,
evaluating the exact skew-IoU against the threshold for every
candidate. -/
def ungatedOverlap (b1 : RBox) (bs : List RBox) (n : ℚ) : Except String (List Bool) :=
  Except.map (fun vs => vs.map (fun v => decide (n < v))) (skewiou b1 bs)

/-- A `10 × 2` box rotated by 90 degrees (`(cos, sin) = (0, 1)`): it
occupies the same region of the plane as `hbox`. -/
def vbox : RBox := ⟨0, 0, 10, 2, 0, 1⟩

/-- An axis-aligned `2 × 10` box at the origin. -/
def hbox : RBox := ⟨0, 0, 2, 10, 1, 0⟩

/-- The suppression test actually applied by the NMS loop to a
remaining candidate: axis-aligned prefilter AND thresholded exact
skew-IoU. -/
def suppTest (best r : PredRow) (n : ℚ) : Bool :=
  gateTest best.box r.box && decide (n < skewOne best.box r.box)

/-- A candidate row with the geometry of `vbox` and confidence 1. -/
def row1 : PredRow := ⟨0, 0, 10, 2, 0, 1, 1, [1]⟩

/-- A candidate row with the geometry of `hbox` and confidence 1. -/
def row2 : PredRow := ⟨0, 0, 2, 10, 1, 0, 1, [1]⟩

/-- Candidate `A` of the NMS idempotence counterexample. -/
def rowA : PredRow := ⟨0, 0, 4, 4, 1, 0, 1 / 2, [1, 0]⟩

/-- Candidate `B`, suppressed by `A` in the first run and merged into
it, dragging the kept box to `x = 1`. -/
def rowB : PredRow := ⟨3 / 2, 0, 4, 4, 1, 0, 1, [2 / 5, 0]⟩

/-- Candidate `C`, NOT suppressed by the original `A` but suppressed by
the merged `A` of the first run. -/
def rowC : PredRow := ⟨5 / 2, 0, 4, 4, 1, 0, 1 / 2, [9 / 10, 1 / 10]⟩

/-- The first run's kept boxes: the merged `A` and the untouched `C`. -/
def rowA' : PredRow := ⟨1, 0, 4, 4, 1, 0, 1 / 2, [1, 0]⟩

/-- The second run's single kept box: `C` merged into the moved `A`. -/
def rowA2 : PredRow := ⟨7 / 4, 0, 4, 4, 1, 0, 1 / 2, [1, 0]⟩

/-- A `4 × 4` candidate at the origin used by the no-suppression
witness. -/
def rowD : PredRow := ⟨0, 0, 4, 4, 1, 0, 1, [1]⟩

/-- A `4 × 4` candidate at `x = 2`: against `rowD` its axis-aligned
prefilter passes (`8/24 > 0.3`) but its exact skew-IoU `1/3` stays
below the `0.4` threshold, so the gated test still reports
no-overlap. -/
def rowE : PredRow := ⟨2, 0, 4, 4, 1, 0, 1, [1]⟩

/-- A well-formed `2 × 2` box. -/
def okBox : RBox := ⟨0, 0, 2, 2, 1, 0⟩

/-- A degenerate box with `w = 0`: its corner polygon has zero area. -/
def degBox : RBox := ⟨0, 0, 0, 10, 1, 0⟩

/-- A concrete instantiation of the transcendental record for closed
test points, agreeing with the real functions at the arguments the
tests evaluate: `rcos` is constantly `1` (the tests only take the
cosine of an angle difference `0`, and `cos 0 = 1`); `rexp` is the
cubic Taylor polynomial of `exp` (all that matters below is
`rexp 1 ≠ 1`, true of the real `exp` as well since `e ≈ 2.718`). -/
def trigEx : TrigOps :=
  ⟨fun _ => 1, fun _ => 0, fun x => 1 + x + x ^ 2 / 2 + x ^ 3 / 6, fun _ => 0, 355 / 113⟩

/-- The predicted box of the CIoU counterexample (a `2 × 2` square at
the origin, rotated by the 3-4-5 angle `θ* = arccos (4/5)`). -/
def cexPred : B5 := ⟨0, 0, 2, 2, 1⟩

/-- The target box of the CIoU counterexample (the same square moved to
`x = 2`, same rotation). -/
def cexTarg : B5 := ⟨2, 0, 2, 2, 1⟩

/-- The predicted box of the counterexample with its rotation resolved
into `(cos θ*, sin θ*) = (4/5, 3/5)`. -/
def cexPredR : RBox := ⟨0, 0, 2, 2, 4 / 5, 3 / 5⟩

/-- The target box of the counterexample with its rotation resolved
into `(cos θ*, sin θ*) = (4/5, 3/5)`. -/
def cexTargR : RBox := ⟨2, 0, 2, 2, 4 / 5, 3 / 5⟩

/-- The configuration of the concrete target-assignment test: one
batch, one anchor, a `2 × 2` grid, one class, ignore threshold `1/2`,
stride `16`. -/
def cexCfg : BTCfg := ⟨1, 1, 2, 1, 1 / 2, 16⟩

/-- The anchor list of the concrete target-assignment test. -/
def cexAnchors : List Anchor3 := [⟨1, 1, 0⟩]

/-- The single ground truth of the concrete test: class 0, centered at
`(0.25, 0.25)`, half-grid sized, angle 0. -/
def cexTRow : TRow := ⟨0, 0, 1 / 4, 1 / 4, 1 / 2, 1 / 2, 0⟩

/-- A prediction tensor whose box at every cell is far away from the
ground truth (IoU `0`). -/
def cexPredBoxes : Idx → B5 := fun _ => ⟨10, 10, 1, 1, 0⟩

/-- A constant class-probability tensor for the concrete test. -/
def cexPredCls : Idx → List ℚ := fun _ => [1]

/-! ## Helper lemmas: mask selection and the gated overlap test -/

theorem maskSelect_length_le {α : Type} :
    ∀ (l : List α) (m : List Bool), (maskSelect l m).length ≤ l.length := by
  intro l
  induction l with
  | nil => intro m; cases m <;> simp [maskSelect]
  | cons a l ih =>
    intro m
    cases m with
    | nil => simp [maskSelect]
    | cons b m =>
      cases b <;> simp only [maskSelect, if_true, if_false, List.length_cons]
      · exact Nat.le_succ_of_le (ih m)
      · exact Nat.succ_le_succ (ih m)

theorem maskSelect_all_false {α : Type} :
    ∀ (l : List α) (m : List Bool), (∀ f ∈ m, f = false) → maskSelect l m = [] := by
  intro l
  induction l with
  | nil => intro m _; cases m <;> rfl
  | cons a l ih =>
    intro m hm
    cases m with
    | nil => rfl
    | cons b m =>
      have hb : b = false := hm b (List.mem_cons_self _ _)
      simp only [maskSelect, hb, if_false, Bool.false_eq_true]
      exact ih m (fun f hf => hm f (List.mem_cons_of_mem _ hf))

theorem maskSelect_all_true {α : Type} :
    ∀ (l : List α) (m : List Bool), m.length = l.length → (∀ f ∈ m, f = true) →
      maskSelect l m = l := by
  intro l
  induction l with
  | nil => intro m _ _; cases m <;> rfl
  | cons a l ih =>
    intro m hlen hm
    cases m with
    | nil => simp at hlen
    | cons b m =>
      have hb : b = true := hm b (List.mem_cons_self _ _)
      simp only [maskSelect, hb, if_true]
      simp only [List.length_cons, Nat.succ.injEq] at hlen
      exact congrArg (a :: ·) (ih m hlen (fun f hf => hm f (List.mem_cons_of_mem _ hf)))

theorem maskSelect_map_pred {α : Type} (P : α → Bool) :
    ∀ l : List α, maskSelect l (l.map P) = l.filter P := by
  intro l
  induction l with
  | nil => rfl
  | cons a l ih =>
    cases hP : P a <;>
      simp [maskSelect, List.filter_cons, hP, ih]

theorem mergeBest_nil (b : PredRow) (h : b.cf ≠ 0) : mergeBest b [] = b := by
  cases b with
  | mk x y w h' ca sa cf cls =>
    simp only [mergeBest, List.map_nil, List.sum_nil, add_zero, mul_zero, PredRow.mk.injEq]
    simp only [PredRow.cf] at h
    refine ⟨?_, ?_, ?_, ?_, ?_, ?_, ?_, ?_⟩ <;> first
      | trivial
      | field_simp

theorem skewiou_ok (b1 : RBox) :
    ∀ bs : List RBox, polyValid (rbox2polygon b1) = true →
      (∀ b ∈ bs, polyValid (rbox2polygon b) = true) →
      skewiou b1 bs = Except.ok (bs.map (skewOne b1)) := by
  intro bs
  induction bs with
  | nil => intro _ _; rfl
  | cons b bs ih =>
    intro h1 h2
    have hb : polyValid (rbox2polygon b) = true := h2 b (List.mem_cons_self _ _)
    have hrest := ih h1 (fun b' hb' => h2 b' (List.mem_cons_of_mem _ hb'))
    simp only [skewiou, h1, hb, Bool.and_self, if_true, hrest, List.map_cons]
    rfl

theorem scatterFlags_spec (b1 : RBox) (n : ℚ) :
    ∀ bs : List RBox,
      scatterFlags b1 n bs ((bs.filter (fun b => gateTest b1 b)).map (skewOne b1)) =
        bs.map (fun b => gateTest b1 b && decide (n < skewOne b1 b)) := by
  intro bs
  induction bs with
  | nil => rfl
  | cons b bs ih =>
    cases hg : gateTest b1 b <;>
      simp only [scatterFlags, List.filter_cons, hg, List.map_cons, List.map_nil,
        Bool.false_and, Bool.true_and, if_false, if_true, cond_true, cond_false, ih]
    · simp [ih]

/-- The gated overlap test, pointwise: whenever the involved polygons
are valid, `iou` returns exactly the conjunction of the axis-aligned
prefilter and the thresholded exact skew-IoU for every candidate. -/
theorem iou_eq_pointwise (b1 : RBox) (bs : List RBox) (n : ℚ)
    (h1 : polyValid (rbox2polygon b1) = true)
    (h2 : ∀ b ∈ bs, polyValid (rbox2polygon b) = true) :
    iou b1 bs n = Except.ok (bs.map (fun b => gateTest b1 b && decide (n < skewOne b1 b))) := by
  unfold iou
  cases hs : (bs.filter (fun b => gateTest b1 b)).isEmpty with
  | true =>
    rw [if_pos hs]
    have hnil : bs.filter (fun b => gateTest b1 b) = [] := List.isEmpty_iff.mp hs
    have hall : ∀ b ∈ bs, gateTest b1 b = false := by
      intro b hb
      by_contra hc
      have : b ∈ bs.filter (fun b => gateTest b1 b) :=
        List.mem_filter.mpr ⟨hb, by simpa using hc⟩
      simp [hnil] at this
    have hmap : bs.map (fun _ => false) =
        bs.map (fun b => gateTest b1 b && decide (n < skewOne b1 b)) := by
      apply List.map_congr_left
      intro b hb
      simp [hall b hb]
    rw [hmap]
  | false =>
    rw [if_neg (by simp [hs])]
    have hsub : ∀ b ∈ bs.filter (fun b => gateTest b1 b), polyValid (rbox2polygon b) = true :=
      fun b hb => h2 b (List.mem_of_mem_filter hb)
    rw [skewiou_ok b1 _ h1 hsub]
    show Except.ok (scatterFlags b1 n bs _) = _
    rw [scatterFlags_spec]

theorem exceptBind_ok {α β : Type} (a : α) (f : α → Except String β) :
    Bind.bind (Except.ok a) f = f a := rfl

/-- The recursion bound of the NMS loop is irrelevant once it covers
the list length. -/
theorem nmsLoopF_fuel (n : ℚ) :
    ∀ (f1 f2 : ℕ) (l : List PredRow), l.length ≤ f1 → l.length ≤ f2 →
      nmsLoopF n f1 l = nmsLoopF n f2 l := by
  intro f1
  induction f1 with
  | zero =>
    intro f2 l h1 _
    cases l with
    | nil => cases f2 <;> rfl
    | cons b rest => simp at h1
  | succ f ih =>
    intro f2 l h1 h2
    cases l with
    | nil => cases f2 <;> rfl
    | cons b rest =>
      cases f2 with
      | zero => simp at h2
      | succ f2' =>
        simp only [List.length_cons, Nat.succ_le_succ_iff] at h1 h2
        simp only [nmsLoopF]
        cases hre : rest.isEmpty with
        | true => rfl
        | false =>
          simp only [Bool.false_eq_true, if_false]
          apply congrArg (Except.bind _)
          funext flags
          apply congrArg₂ Except.bind ?_ rfl
          have hk := maskSelect_length_le rest (flags.map (fun b => !b))
          exact ih f2' _ (le_trans hk h1) (le_trans hk h2)

/-- One unfolding step of the NMS loop on a nonempty remaining set. -/
theorem nmsLoop_cons (n : ℚ) (best : PredRow) (rest : List PredRow) :
    nmsLoop n (best :: rest) =
      (if rest.isEmpty then Except.ok [best]
       else do
        let flags ← iou best.box (rest.map PredRow.box) n
        let tail ← nmsLoop n (maskSelect rest (flags.map (fun b => !b)))
        Except.ok (mergeBest best (maskSelect rest flags) :: tail)) := by
  show nmsLoopF n (rest.length + 1) (best :: rest) = _
  simp only [nmsLoopF]
  cases hre : rest.isEmpty with
  | true => rfl
  | false =>
    simp only [Bool.false_eq_true, if_false]
    apply congrArg (Except.bind _)
    funext flags
    apply congrArg₂ Except.bind ?_ rfl
    have hk := maskSelect_length_le rest (flags.map (fun b => !b))
    exact nmsLoopF_fuel n rest.length _ _ hk (le_refl _)

/-- With no pair passing the gated overlap test (prefilter AND
thresholded exact skew-IoU), well-formed polygons and positive
confidences, the greedy loop keeps every candidate unchanged. -/
theorem nmsLoop_no_suppress (n : ℚ) :
    ∀ l : List PredRow, l.Pairwise (fun p q => suppTest p q n = false) →
      (∀ r ∈ l, polyValid (rbox2polygon r.box) = true) →
      (∀ r ∈ l, 0 < r.cf) → nmsLoop n l = Except.ok l := by
  intro l
  induction l with
  | nil => intro _ _ _; rfl
  | cons b rest ih =>
    intro hp hv hc
    rcases List.pairwise_cons.mp hp with ⟨hb, hrest⟩
    rw [nmsLoop_cons]
    cases hre : rest.isEmpty with
    | true =>
      have : rest = [] := List.isEmpty_iff.mp hre
      subst this
      rfl
    | false =>
      simp only [Bool.false_eq_true, if_false]
      have h1 : polyValid (rbox2polygon b.box) = true := hv b (List.mem_cons_self _ _)
      have h2 : ∀ bb ∈ rest.map PredRow.box, polyValid (rbox2polygon bb) = true := by
        intro bb hbb
        rcases List.mem_map.mp hbb with ⟨r, hr, rfl⟩
        exact hv r (List.mem_cons_of_mem _ hr)
      rw [iou_eq_pointwise b.box (rest.map PredRow.box) n h1 h2, exceptBind_ok]
      have hflags : (rest.map PredRow.box).map
          (fun bb => gateTest b.box bb && decide (n < skewOne b.box bb)) =
          rest.map (fun r => suppTest b r n) := by
        simp [List.map_map, suppTest, Function.comp]
      rw [hflags]
      have hallfalse : ∀ f ∈ rest.map (fun r => suppTest b r n), f = false := by
        intro f hf
        rcases List.mem_map.mp hf with ⟨r, hr, rfl⟩
        exact hb r hr
      have hkept : maskSelect rest ((rest.map (fun r => suppTest b r n)).map
          (fun x => !x)) = rest := by
        apply maskSelect_all_true
        · simp
        · intro f hf
          rcases List.mem_map.mp hf with ⟨g, hg, rfl⟩
          rw [hallfalse g hg]
          rfl
      have hthrown : maskSelect rest (rest.map (fun r => suppTest b r n)) = [] :=
        maskSelect_all_false rest _ hallfalse
      rw [hkept,
        ih hrest (fun r hr => hv r (List.mem_cons_of_mem _ hr))
          (fun r hr => hc r (List.mem_cons_of_mem _ hr)),
        exceptBind_ok, hthrown, mergeBest_nil b (ne_of_gt (hc b (List.mem_cons_self _ _)))]

/-! ## Claims on the gated overlap test and the NMS loop -/

/-- C2, counterexample.  The gated overlap test is NOT equivalent to the
ungated exact test: `vbox` and `hbox` cover the same region (exact
skew-IoU `1 > nms_thres = 0.4`), but the axis-aligned prefilter of the
gate reads their un-rotated extents, gets `4/36 ≤ 0.3`, and reports
no-overlap. -/
theorem claim_C2_counterexample :
    iou vbox [hbox] (2 / 5) = Except.ok [false] ∧
    ungatedOverlap vbox [hbox] (2 / 5) = Except.ok [true] ∧
    (Except.ok [false] : Except String (List Bool)) ≠ Except.ok [true] := by
  refine ⟨?_, ?_, by simp⟩
  · norm_num [iou, gateTest, aaIou, xywh2xyxy, vbox, hbox]
  · norm_num [ungatedOverlap, skewiou, polyValid, skewOne, get_iou, interArea, polyClip,
      clipEdge, polyEdges, rbox2polygon, polyArea, shoelace2, insideEdge, lineInter, cross,
      List.rotate, vbox, hbox, Except.map, exceptBind_ok]

/-- C2, amended.  For valid (positive-area) polygons the gated overlap
test returns, for every candidate, the conjunction of the axis-aligned
prefilter `aa_iou > 0.3` and the exact-skew-IoU threshold test — not
the ungated threshold test alone. -/
theorem claim_C2_theorem (b1 : RBox) (bs : List RBox) (n : ℚ)
    (h1 : polyValid (rbox2polygon b1) = true)
    (h2 : ∀ b ∈ bs, polyValid (rbox2polygon b) = true) :
    iou b1 bs n = Except.ok (bs.map (fun b => gateTest b1 b && decide (n < skewOne b1 b))) :=
  iou_eq_pointwise b1 bs n h1 h2

/-- C2, witness for the amended theorem at a concrete valid pair. -/
theorem claim_C2_witness :
    iou hbox [vbox] (2 / 5) =
      Except.ok ([vbox].map (fun b => gateTest hbox b && decide ((2 / 5 : ℚ) < skewOne hbox b))) :=
  claim_C2_theorem hbox [vbox] (2 / 5)
    (by norm_num [polyValid, polyArea, shoelace2, polyEdges, rbox2polygon, List.rotate, hbox])
    (by
      intro b hb
      simp only [List.mem_singleton] at hb
      subst hb
      norm_num [polyValid, polyArea, shoelace2, polyEdges, rbox2polygon, List.rotate, vbox])

/-- C4, counterexample.  A candidate whose exact skew-IoU with the
current best is `1 > nms_thres = 0.4` is NOT removed, because the
axis-aligned prefilter gates the exact test off; the loop keeps both
boxes. -/
theorem nmsLoop_nil (n : ℚ) : nmsLoop n [] = Except.ok [] := rfl

theorem claim_C4_counterexample :
    skewiou row1.box [row2.box] = Except.ok [1] ∧ (2 / 5 : ℚ) < 1 ∧
    nmsLoop (2 / 5) [row1, row2] = Except.ok [row1, row2] := by
  refine ⟨?_, by norm_num, ?_⟩
  · norm_num [skewiou, polyValid, get_iou, interArea, polyClip, clipEdge, polyEdges,
      rbox2polygon, polyArea, shoelace2, insideEdge, lineInter, cross, List.rotate,
      row1, row2, PredRow.box, exceptBind_ok]
  · rw [nmsLoop_cons]
    norm_num [iou, gateTest, aaIou, xywh2xyxy, maskSelect, mergeBest, nmsLoop_cons,
      nmsLoop_nil, row1, row2, PredRow.box, exceptBind_ok, scatterFlags]

/-- C4, amended.  One iteration of the NMS loop on a class group:
exactly the candidates passing the gated test (prefilter AND skew-IoU
above `nms_thres`) are removed and merged into the kept box, whose
`(x, y, w, h)` become the confidence-weighted average of `best`
(weighted by its own confidence) and the suppressed boxes, normalized
by the total weight, while the angle, confidence and class fields of
`best` are unchanged. -/
theorem claim_C4_theorem (best : PredRow) (rest : List PredRow) (n : ℚ)
    (hne : rest ≠ [])
    (hv : ∀ r ∈ best :: rest, polyValid (rbox2polygon r.box) = true) :
    (nmsLoop n (best :: rest) =
      (do
        let tail ← nmsLoop n (rest.filter (fun r => !(suppTest best r n)))
        Except.ok (mergeBest best (rest.filter (fun r => suppTest best r n)) :: tail))) ∧
    (mergeBest best (rest.filter (fun r => suppTest best r n))).x =
      (best.x * best.cf +
        ((rest.filter (fun r => suppTest best r n)).map (fun r => r.cf * r.x)).sum) /
      (best.cf + ((rest.filter (fun r => suppTest best r n)).map (fun r => r.cf)).sum) ∧
    (mergeBest best (rest.filter (fun r => suppTest best r n))).y =
      (best.y * best.cf +
        ((rest.filter (fun r => suppTest best r n)).map (fun r => r.cf * r.y)).sum) /
      (best.cf + ((rest.filter (fun r => suppTest best r n)).map (fun r => r.cf)).sum) ∧
    (mergeBest best (rest.filter (fun r => suppTest best r n))).w =
      (best.w * best.cf +
        ((rest.filter (fun r => suppTest best r n)).map (fun r => r.cf * r.w)).sum) /
      (best.cf + ((rest.filter (fun r => suppTest best r n)).map (fun r => r.cf)).sum) ∧
    (mergeBest best (rest.filter (fun r => suppTest best r n))).h =
      (best.h * best.cf +
        ((rest.filter (fun r => suppTest best r n)).map (fun r => r.cf * r.h)).sum) /
      (best.cf + ((rest.filter (fun r => suppTest best r n)).map (fun r => r.cf)).sum) ∧
    (mergeBest best (rest.filter (fun r => suppTest best r n))).ca = best.ca ∧
    (mergeBest best (rest.filter (fun r => suppTest best r n))).sa = best.sa ∧
    (mergeBest best (rest.filter (fun r => suppTest best r n))).cf = best.cf ∧
    (mergeBest best (rest.filter (fun r => suppTest best r n))).cls = best.cls := by
  refine ⟨?_, rfl, rfl, rfl, rfl, rfl, rfl, rfl, rfl⟩
  rw [nmsLoop_cons]
  rw [if_neg (by simp [hne])]
  have h1 : polyValid (rbox2polygon best.box) = true := hv best (List.mem_cons_self _ _)
  have h2 : ∀ bb ∈ rest.map PredRow.box, polyValid (rbox2polygon bb) = true := by
    intro bb hbb
    rcases List.mem_map.mp hbb with ⟨r, hr, rfl⟩
    exact hv r (List.mem_cons_of_mem _ hr)
  rw [iou_eq_pointwise best.box (rest.map PredRow.box) n h1 h2, exceptBind_ok]
  have hflags : (rest.map PredRow.box).map
      (fun b => gateTest best.box b && decide (n < skewOne best.box b)) =
      rest.map (fun r => suppTest best r n) := by
    simp [List.map_map, suppTest, Function.comp]
  rw [hflags]
  have hkept : maskSelect rest ((rest.map (fun r => suppTest best r n)).map (fun b => !b)) =
      rest.filter (fun r => !(suppTest best r n)) := by
    rw [List.map_map]
    exact maskSelect_map_pred _ rest
  have hthrown : maskSelect rest (rest.map (fun r => suppTest best r n)) =
      rest.filter (fun r => suppTest best r n) :=
    maskSelect_map_pred _ rest
  rw [hkept, hthrown]

/-- C4, witness for the amended theorem at a concrete input. -/
theorem claim_C4_witness :
    (nmsLoop (2 / 5) (row1 :: [row2]) =
      (do
        let tail ← nmsLoop (2 / 5) ([row2].filter (fun r => !(suppTest row1 r (2 / 5))))
        Except.ok (mergeBest row1 ([row2].filter (fun r => suppTest row1 r (2 / 5))) :: tail))) ∧
    (mergeBest row1 ([row2].filter (fun r => suppTest row1 r (2 / 5)))).x =
      (row1.x * row1.cf +
        (([row2].filter (fun r => suppTest row1 r (2 / 5))).map (fun r => r.cf * r.x)).sum) /
      (row1.cf + (([row2].filter (fun r => suppTest row1 r (2 / 5))).map (fun r => r.cf)).sum) ∧
    (mergeBest row1 ([row2].filter (fun r => suppTest row1 r (2 / 5)))).y =
      (row1.y * row1.cf +
        (([row2].filter (fun r => suppTest row1 r (2 / 5))).map (fun r => r.cf * r.y)).sum) /
      (row1.cf + (([row2].filter (fun r => suppTest row1 r (2 / 5))).map (fun r => r.cf)).sum) ∧
    (mergeBest row1 ([row2].filter (fun r => suppTest row1 r (2 / 5)))).w =
      (row1.w * row1.cf +
        (([row2].filter (fun r => suppTest row1 r (2 / 5))).map (fun r => r.cf * r.w)).sum) /
      (row1.cf + (([row2].filter (fun r => suppTest row1 r (2 / 5))).map (fun r => r.cf)).sum) ∧
    (mergeBest row1 ([row2].filter (fun r => suppTest row1 r (2 / 5)))).h =
      (row1.h * row1.cf +
        (([row2].filter (fun r => suppTest row1 r (2 / 5))).map (fun r => r.cf * r.h)).sum) /
      (row1.cf + (([row2].filter (fun r => suppTest row1 r (2 / 5))).map (fun r => r.cf)).sum) ∧
    (mergeBest row1 ([row2].filter (fun r => suppTest row1 r (2 / 5)))).ca = row1.ca ∧
    (mergeBest row1 ([row2].filter (fun r => suppTest row1 r (2 / 5)))).sa = row1.sa ∧
    (mergeBest row1 ([row2].filter (fun r => suppTest row1 r (2 / 5)))).cf = row1.cf ∧
    (mergeBest row1 ([row2].filter (fun r => suppTest row1 r (2 / 5)))).cls = row1.cls :=
  claim_C4_theorem row1 [row2] (2 / 5) (by simp)
    (by
      intro r hr
      simp only [List.mem_cons, List.mem_singleton] at hr
      rcases hr with hr | hr | hr <;> first
        | (subst hr; norm_num [polyValid, polyArea, shoelace2, polyEdges, rbox2polygon,
            List.rotate, row1, row2, PredRow.box])
        | exact absurd hr (by simp))

/-- C10.  When no remaining candidate is flagged by the suppression
vector (all entries `False`) and the best box's confidence is positive,
the merge update is the identity on the kept box. -/
theorem claim_C10_theorem (best : PredRow) (rest : List PredRow) (flags : List Bool)
    (hf : ∀ f ∈ flags, f = false) (hc : 0 < best.cf) :
    mergeBest best (maskSelect rest flags) = best := by
  rw [maskSelect_all_false rest flags hf]
  exact mergeBest_nil best (ne_of_gt hc)

/-- C10, witness at a concrete input. -/
theorem claim_C10_witness :
    mergeBest row1 (maskSelect [row2] [false]) = row1 :=
  claim_C10_theorem row1 [row2] [false] (by simp) (by norm_num [row1])

set_option maxHeartbeats 3000000 in
/-- C3, counterexample.  The rotated NMS post-processing is NOT
idempotent: merging moves the kept box, so a second run on the first
run's output suppresses a candidate the first run kept. -/
theorem claim_C3_counterexample :
    processImage [rowA, rowB, rowC] (1 / 2) (2 / 5) = Except.ok [rowA', rowC] ∧
    processImage [rowA', rowC] (1 / 2) (2 / 5) = Except.ok [rowA2] ∧
    ([rowA', rowC] : List PredRow) ≠ [rowA2] := by
  refine ⟨?_, ?_, by simp [rowA', rowA2, rowC]⟩ <;>
    norm_num [processImage, mapMExcept, sortDesc, insertDesc, score, maxListQ, labelOf,
      firstArgmax, argmaxAux, uniqueSorted, insertAscN, dedupSorted, nmsLoop_cons,
      nmsLoop_nil, iou, gateTest, aaIou, xywh2xyxy, maskSelect, mergeBest, skewiou,
      polyValid, get_iou, interArea, polyClip, clipEdge, polyEdges, rbox2polygon, polyArea,
      shoelace2, insideEdge, lineInter, cross, List.rotate, rowA, rowB, rowC, rowA', rowA2,
      PredRow.box, exceptBind_ok, scatterFlags]

/-- C3, amended.  When no pair of candidates passes the gated overlap
test — the axis-aligned prefilter AND the skew-IoU threshold, so the
loop suppresses and merges nothing — with well-formed (positive-area)
boxes and positive confidences, the NMS loop returns its input
unchanged, and running it a second time on its own output changes
nothing. -/
theorem claim_C3_theorem (n : ℚ) (l : List PredRow)
    (hp : l.Pairwise (fun p q => suppTest p q n = false))
    (hv : ∀ r ∈ l, polyValid (rbox2polygon r.box) = true)
    (hc : ∀ r ∈ l, 0 < r.cf) :
    nmsLoop n l = Except.ok l ∧
    Bind.bind (nmsLoop n l) (fun out => nmsLoop n out) = nmsLoop n l := by
  have h := nmsLoop_no_suppress n l hp hv hc
  exact ⟨h, by rw [h, exceptBind_ok, h]⟩

/-- C3, witness for the amended theorem at a concrete input whose pair
passes the axis-aligned prefilter (`8/24 > 0.3`) but stays below the
skew-IoU threshold (`1/3 ≤ 0.4`), so the gated test fails and the loop
is the identity. -/
theorem claim_C3_witness :
    nmsLoop (2 / 5) [rowD, rowE] = Except.ok [rowD, rowE] ∧
    Bind.bind (nmsLoop (2 / 5) [rowD, rowE]) (fun out => nmsLoop (2 / 5) out) =
      nmsLoop (2 / 5) [rowD, rowE] :=
  claim_C3_theorem (2 / 5) [rowD, rowE]
    (by
      refine List.pairwise_cons.mpr ⟨?_, List.pairwise_singleton _ _⟩
      intro r hr
      simp only [List.mem_singleton] at hr
      subst hr
      norm_num [suppTest, gateTest, aaIou, xywh2xyxy, skewOne, get_iou, interArea,
        polyClip, clipEdge, polyEdges, rbox2polygon, polyArea, shoelace2, insideEdge,
        lineInter, cross, List.rotate, rowD, rowE, PredRow.box])
    (by
      intro r hr
      simp only [List.mem_cons, List.mem_singleton] at hr
      rcases hr with hr | hr | hr <;> first
        | (subst hr; norm_num [polyValid, polyArea, shoelace2, polyEdges, rbox2polygon,
            List.rotate, rowD, rowE, PredRow.box])
        | exact absurd hr (by simp))
    (by
      intro r hr
      simp only [List.mem_cons, List.mem_singleton] at hr
      rcases hr with hr | hr | hr <;> first
        | (subst hr; norm_num [rowD, rowE])
        | exact absurd hr (by simp))

/-! ## Claims on degenerate geometry (`skewiou` validity) -/

/-- C6, counterexample.  On a degenerate box (`w = 0`) the skew-IoU
computation raises the geometry error instead of returning 0: the
zero-area corner ring is topologically invalid. -/
theorem claim_C6_counterexample :
    skewiou okBox [degBox] = Except.error "something went wrong in skew iou" ∧
    skewiou okBox [degBox] ≠ Except.ok [0] := by
  have h : skewiou okBox [degBox] = Except.error "something went wrong in skew iou" := by
    norm_num [skewiou, polyValid, polyArea, shoelace2, polyEdges, rbox2polygon, List.rotate,
      okBox, degBox]
  exact ⟨h, by rw [h]; simp⟩

theorem shoelace_rbox (b : RBox) :
    shoelace2 (rbox2polygon b) = 2 * (b.w * b.h) * (b.c ^ 2 + b.s ^ 2) := by
  simp only [shoelace2, polyEdges, rbox2polygon, List.rotate, List.map_cons, List.map_nil,
    List.length_cons, List.length_nil, List.zip_cons_cons, List.zip_nil_right,
    List.sum_cons, List.sum_nil]
  norm_num
  ring

/-- For a genuine angle (`c² + s² = 1`) the corner polygon's area is
`|w · h|`. -/
theorem polyArea_rbox (b : RBox) (hu : b.c ^ 2 + b.s ^ 2 = 1) :
    polyArea (rbox2polygon b) = |b.w * b.h| := by
  rw [polyArea, shoelace_rbox, hu, mul_one, abs_mul]
  norm_num

/-- C6, amended.  Degenerate boxes make the polygon invalid and raise
the geometry error; for boxes with nonzero width and height (and a
genuine angle) `skewiou` never errors and returns the exact overlap
ratio of every pair. -/
theorem claim_C6_theorem (b1 : RBox) (bs : List RBox)
    (h1w : b1.w ≠ 0) (h1h : b1.h ≠ 0) (h1u : b1.c ^ 2 + b1.s ^ 2 = 1)
    (hbs : ∀ b ∈ bs, b.w ≠ 0 ∧ b.h ≠ 0 ∧ b.c ^ 2 + b.s ^ 2 = 1) :
    skewiou b1 bs = Except.ok (bs.map (skewOne b1)) := by
  apply skewiou_ok
  · simp [polyValid, polyArea_rbox b1 h1u, abs_ne_zero, h1w, h1h]
  · intro b hb
    rcases hbs b hb with ⟨hw, hh, hu⟩
    simp [polyValid, polyArea_rbox b hu, abs_ne_zero, hw, hh]

/-- C6, witness for the amended theorem at a concrete pair. -/
theorem claim_C6_witness :
    skewiou okBox [hbox] = Except.ok ([hbox].map (skewOne okBox)) :=
  claim_C6_theorem okBox [hbox] (by norm_num [okBox]) (by norm_num [okBox])
    (by norm_num [okBox])
    (by
      intro b hb
      simp only [List.mem_singleton] at hb
      subst hb
      norm_num [hbox])

/-! ## Claims on the CIoU routine (`bbox_xywha_ciou`) -/

/-- One row of `bbox_xywha_ciou` computes exactly the spec §4.1
axis-aligned IoU (rotation ignored) times the angle factor, and the
spec §4.2 CIoU term. -/
theorem ciouPointwise_spec (T : TrigOps) (p t : B5) :
    ciouPointwise T p t = (specAAIou p t * |T.rcos (p.a - t.a)|, specCIoU T p t) := by
  have hw1 : p.x + p.w / 2 - (p.x - p.w / 2) = p.w := by ring
  have hh1 : p.y + p.h / 2 - (p.y - p.h / 2) = p.h := by ring
  have hw2 : t.x + t.w / 2 - (t.x - t.w / 2) = t.w := by ring
  have hh2 : t.y + t.h / 2 - (t.y - t.h / 2) = t.h := by ring
  have hcx1 : (p.x + p.w / 2 + (p.x - p.w / 2)) / 2 = p.x := by ring
  have hcy1 : (p.y + p.h / 2 + (p.y - p.h / 2)) / 2 = p.y := by ring
  have hcx2 : (t.x + t.w / 2 + (t.x - t.w / 2)) / 2 = t.x := by ring
  have hcy2 : (t.y + t.h / 2 + (t.y - t.h / 2)) / 2 = t.y := by ring
  simp only [ciouPointwise, specAAIou, specCIoU, hw1, hh1, hw2, hh2, hcx1, hcy1, hcx2, hcy2]

/-- C1, counterexample.  At two congruent boxes sharing the 3-4-5
rotation (`cos θ* = 4/5`, `sin θ* = 3/5`, a genuine unit pair, and the
angle factor at difference `0` is `1`), the first component returned by
`bbox_xywha_ciou` is `0` — its internal IoU ignores rotation and sees
two merely touching axis-aligned squares — while the exact oriented
polygon-intersection IoU of the pair times the angle factor is
`1/24 ≠ 0`. -/
theorem claim_C1_counterexample :
    trigEx.rcos (cexPred.a - cexTarg.a) = (4 / 5) * (4 / 5) + (3 / 5) * (3 / 5) ∧
    (4 / 5 : ℚ) ^ 2 + (3 / 5) ^ 2 = 1 ∧
    Option.map (fun l => l.map Prod.fst) (bbox_xywha_ciou trigEx [cexPred] [cexTarg]) =
      some [0] ∧
    specSkewIoU cexPredR cexTargR * |trigEx.rcos (cexPred.a - cexTarg.a)| = 1 / 24 ∧
    (0 : ℚ) ≠ 1 / 24 := by
  refine ⟨by norm_num [trigEx, cexPred, cexTarg], by norm_num, ?_, ?_, by norm_num⟩
  · norm_num [bbox_xywha_ciou, ciouPointwise, trigEx, cexPred, cexTarg]
  · norm_num [specSkewIoU, interArea, polyClip, clipEdge, polyEdges, rbox2polygon, polyArea,
      shoelace2, insideEdge, lineInter, cross, List.rotate, cexPredR, cexTargR, trigEx,
      cexPred, cexTarg]
    rw [show |(16 : ℚ) / 25| = 16 / 25 from abs_of_pos (by norm_num)]
    norm_num

/-- C1, amended.  For equal-length batches, `bbox_xywha_ciou` returns
the pair `(aa_iou · angle_factor, ciou)`: the first component is the
spec §4.1 axis-aligned IoU of the two boxes with rotation ignored
(NOT the exact oriented polygon-intersection IoU) times
`|cos(θ_pred − θ_target)|`, and the second is the spec §4.2 CIoU
regression term. -/
theorem claim_C1_theorem (T : TrigOps) (pred target : List B5)
    (h : pred.length = target.length) :
    bbox_xywha_ciou T pred target =
      some ((pred.zip target).map (fun pt =>
        (specAAIou pt.1 pt.2 * |T.rcos (pt.1.a - pt.2.a)|, specCIoU T pt.1 pt.2))) := by
  unfold bbox_xywha_ciou
  rw [if_pos h]
  congr 1
  apply List.map_congr_left
  intro pt _
  exact ciouPointwise_spec T pt.1 pt.2

/-- C1, witness for the amended theorem at a concrete pair. -/
theorem claim_C1_witness :
    bbox_xywha_ciou trigEx [cexPred] [cexTarg] =
      some (([cexPred].zip [cexTarg]).map (fun pt =>
        (specAAIou pt.1 pt.2 * |trigEx.rcos (pt.1.a - pt.2.a)|, specCIoU trigEx pt.1 pt.2))) :=
  claim_C1_theorem trigEx [cexPred] [cexTarg] rfl

/-! ## Scatter lemmas for the target-assignment folds -/

theorem foldl_updTrue_eq {α β : Type} [DecidableEq β] (K : α → β) :
    ∀ (l : List α) (f : β → Bool) (p : β),
      (l.foldl (fun g t => upd g (K t) true) f) p =
        (f p || l.any (fun t => decide (K t = p))) := by
  intro l
  induction l with
  | nil => simp
  | cons a l ih =>
    intro f p
    simp only [List.foldl_cons, List.any_cons, ih]
    by_cases h : p = K a
    · subst h
      simp [upd]
    · rw [decide_eq_false (fun hc : K a = p => h hc.symm)]
      simp [upd, h]

theorem foldl_updFalse_eq {α β : Type} [DecidableEq β] (K : α → β) :
    ∀ (l : List α) (f : β → Bool) (p : β),
      (l.foldl (fun g t => upd g (K t) false) f) p =
        (f p && !(l.any (fun t => decide (K t = p)))) := by
  intro l
  induction l with
  | nil => simp
  | cons a l ih =>
    intro f p
    simp only [List.foldl_cons, List.any_cons, ih]
    by_cases h : p = K a
    · subst h
      simp [upd]
    · rw [decide_eq_false (fun hc : K a = p => h hc.symm)]
      simp [upd, h]

theorem foldl_clearStep_preserve {α β : Type} [DecidableEq β] (P : α → Bool) (key : α → β) :
    ∀ (l : List α) (f : β → Bool) (p : β), f p = false →
      (l.foldl (fun g a => if P a then upd g (key a) false else g) f) p = false := by
  intro l
  induction l with
  | nil => intro f p h; exact h
  | cons a l ih =>
    intro f p h
    simp only [List.foldl_cons]
    apply ih
    by_cases hP : P a
    · simp only [hP, if_true]
      by_cases hk : p = key a
      · simp [upd, hk]
      · simp [upd, hk, h]
    · simpa [hP] using h

theorem foldl_clearStep_hit {α β : Type} [DecidableEq β] (P : α → Bool) (key : α → β) :
    ∀ (l : List α) (f : β → Bool) (a : α), a ∈ l → P a = true →
      (l.foldl (fun g a => if P a then upd g (key a) false else g) f) (key a) = false := by
  intro l
  induction l with
  | nil => intro f a ha; exact absurd ha (List.not_mem_nil a)
  | cons b l ih =>
    intro f a ha hP
    rcases List.mem_cons.mp ha with rfl | ha'
    · simp only [List.foldl_cons, hP, if_true]
      apply foldl_clearStep_preserve
      simp [upd]
    · simp only [List.foldl_cons]
      exact ih _ a ha' hP

theorem clearAnchors_preserve (cfg : BTCfg) (t : TRow) (P : ℕ → Bool) (f : Idx → Bool)
    (p : Idx) (h : f p = false) : clearAnchors cfg t P f p = false :=
  foldl_clearStep_preserve P (fun a => (t.b, a, gjOf cfg t, giOf cfg t)) _ f p h

theorem clearAnchors_hit (cfg : BTCfg) (t : TRow) (P : ℕ → Bool) (f : Idx → Bool)
    (a : ℕ) (ha : a < cfg.nA) (hP : P a = true) :
    clearAnchors cfg t P f (t.b, a, gjOf cfg t, giOf cfg t) = false :=
  foldl_clearStep_hit P (fun a => (t.b, a, gjOf cfg t, giOf cfg t)) _ f a
    (List.mem_range.mpr ha) hP

theorem noobj_fold_preserve (T : TrigOps) (anchors : List Anchor3) (cfg : BTCfg) :
    ∀ (l : List TRow) (f : Idx → Bool) (p : Idx), f p = false →
      (l.foldl
        (fun f t =>
          clearAnchors cfg t (ignoreCond2 T anchors cfg t)
            (clearAnchors cfg t (ignoreCond1 T anchors cfg t) f)) f) p = false := by
  intro l
  induction l with
  | nil => intro f p h; exact h
  | cons s l ih =>
    intro f p h
    simp only [List.foldl_cons]
    exact ih _ p (clearAnchors_preserve _ _ _ _ _ (clearAnchors_preserve _ _ _ _ _ h))

theorem noobj_fold_hit (T : TrigOps) (anchors : List Anchor3) (cfg : BTCfg) :
    ∀ (l : List TRow) (f : Idx → Bool) (t : TRow) (a : ℕ), t ∈ l → a < cfg.nA →
      (ignoreCond1 T anchors cfg t a || ignoreCond2 T anchors cfg t a) = true →
      (l.foldl
        (fun f t =>
          clearAnchors cfg t (ignoreCond2 T anchors cfg t)
            (clearAnchors cfg t (ignoreCond1 T anchors cfg t) f)) f)
        (t.b, a, gjOf cfg t, giOf cfg t) = false := by
  intro l
  induction l with
  | nil => intro f t a ht; exact absurd ht (List.not_mem_nil t)
  | cons s l ih =>
    intro f t a ht ha hcond
    rcases List.mem_cons.mp ht with rfl | ht'
    · simp only [List.foldl_cons]
      apply noobj_fold_preserve
      rcases Bool.or_eq_true_iff.mp hcond with h1 | h2
      · exact clearAnchors_preserve _ _ _ _ _ (clearAnchors_hit cfg t _ f a ha h1)
      · exact clearAnchors_hit cfg t _ _ a ha h2
    · simp only [List.foldl_cons]
      exact ih _ t a ht' ha hcond

theorem foldl_updV_notmem {α β γ : Type} [DecidableEq β] (K : α → β) (V : α → γ) :
    ∀ (l : List α) (f : β → γ) (p : β), (∀ a ∈ l, K a ≠ p) →
      (l.foldl (fun g a => upd g (K a) (V a)) f) p = f p := by
  intro l
  induction l with
  | nil => intro f p _; rfl
  | cons a l ih =>
    intro f p h
    simp only [List.foldl_cons]
    rw [ih _ p (fun b hb => h b (List.mem_cons_of_mem _ hb))]
    have : p ≠ K a := fun hc => h a (List.mem_cons_self _ _) hc.symm
    simp [upd, this]

theorem foldl_updV_mem {α β γ : Type} [DecidableEq β] (K : α → β) (V : α → γ) :
    ∀ (l : List α) (f : β → γ) (t : α), t ∈ l →
      l.Pairwise (fun x y => K x ≠ K y) →
      (l.foldl (fun g a => upd g (K a) (V a)) f) (K t) = V t := by
  intro l
  induction l with
  | nil => intro f t ht; exact absurd ht (List.not_mem_nil t)
  | cons s l ih =>
    intro f t ht hp
    rcases List.pairwise_cons.mp hp with ⟨hs, hl⟩
    rcases List.mem_cons.mp ht with rfl | ht'
    · simp only [List.foldl_cons]
      rw [foldl_updV_notmem K V l _ (K t) (fun b hb => Ne.symm (hs b hb))]
      simp [upd]
    · simp only [List.foldl_cons]
      exact ih _ t ht' hl

/-! ## Claims on target assignment and loss aggregation -/

/-- C5.  For every ground truth and every anchor index — not only the
best-matching one — if the combined anchor score exceeds the ignore
threshold, or exceeds `0.4` while the absolute angle offset is below
`π/12`, then `noobj_mask` is cleared at that ground truth's
`(batch, anchor, cell_y, cell_x)` position. -/
theorem claim_C5_theorem (T : TrigOps) (anchors : List Anchor3) (cfg : BTCfg)
    (predBoxes : Idx → B5) (predCls : Idx → List ℚ) (targets : List TRow)
    (t : TRow) (ht : t ∈ targets) (a : ℕ) (ha : a < cfg.nA)
    (hcond : cfg.ignore_thresh < ariou T (anchors.getD a default) (tbox cfg t) ∨
      (2 / 5 < ariou T (anchors.getD a default) (tbox cfg t) ∧
        angOffset (anchors.getD a default) (tbox cfg t) < T.rpi / 12)) :
    (build_targets T anchors cfg predBoxes predCls targets).noobj_mask
      (t.b, a, gjOf cfg t, giOf cfg t) = false := by
  simp only [build_targets]
  apply noobj_fold_hit T anchors cfg targets _ t a ht ha
  rcases hcond with h1 | ⟨h2, h3⟩
  · have : ignoreCond1 T anchors cfg t a = true := decide_eq_true h1
    simp [this]
  · have hb2 : ignoreCond2 T anchors cfg t a = true := by
      simp only [ignoreCond2, Bool.and_eq_true]
      exact ⟨decide_eq_true h2, decide_eq_true h3⟩
    simp [hb2]

/-- C5, witness at a concrete ground truth whose anchor score `≈ 1`
exceeds the ignore threshold `1/2`. -/
theorem claim_C5_witness :
    (build_targets trigEx cexAnchors cexCfg cexPredBoxes cexPredCls [cexTRow]).noobj_mask
      (cexTRow.b, 0, gjOf cexCfg cexTRow, giOf cexCfg cexTRow) = false :=
  claim_C5_theorem trigEx cexAnchors cexCfg cexPredBoxes cexPredCls [cexTRow] cexTRow
    (List.mem_singleton.mpr rfl) 0 (by norm_num [cexCfg])
    (Or.inl (by
      norm_num [cexCfg, cexAnchors, cexTRow, ariou, anchor_wh_iou, tbox, trigEx]))

/-- C7, counterexample.  At the matched cell of a concrete ground
truth, the stored `skew_iou` diagnostic is `exp(1 − iou) − 1 = 5/3`
(with the cubic Taylor `exp`; the real `exp` gives `e − 1 ≈ 1.718`),
while the §4.2 routine's skew-IoU value for the same pair is `0` — the
stored diagnostic does not equal the §4.2 value. -/
theorem claim_C7_counterexample :
    keyOf trigEx cexAnchors cexCfg cexTRow = (0, 0, 0, 0) ∧
    (build_targets trigEx cexAnchors cexCfg cexPredBoxes cexPredCls [cexTRow]).skew_iou
      (0, 0, 0, 0) = 5 / 3 ∧
    (ciouPointwise trigEx (cexPredBoxes (0, 0, 0, 0)) (tbox cexCfg cexTRow)).1 = 0 ∧
    (5 / 3 : ℚ) ≠ 0 := by
  have hkey : keyOf trigEx cexAnchors cexCfg cexTRow = (0, 0, 0, 0) := by
    norm_num [keyOf, bestN, giOf, gjOf, gridClamp, truncQ, tbox, firstArgmax, argmaxAux,
      cexCfg, cexAnchors, cexTRow]
  have hiou : (ciouPointwise trigEx (cexPredBoxes (0, 0, 0, 0)) (tbox cexCfg cexTRow)).1 = 0 := by
    norm_num [ciouPointwise, cexPredBoxes, tbox, cexCfg, cexTRow, trigEx]
  refine ⟨hkey, ?_, hiou, by norm_num⟩
  simp only [build_targets, List.foldl_cons, List.foldl_nil, hkey, upd, if_pos]
  rw [storedSkew, btPair, hkey, hiou]
  norm_num [trigEx]

/-- C7, amended.  When ground truths claim distinct cells, the stored
diagnostics at each matched cell are `exp(1 − iou) − 1` for `skew_iou`
and `bbox_loss_scale · (1 − ciou)` for `ciou_loss`, where `(iou, ciou)`
is the §4.2 routine's output on the matched prediction/ground-truth
pair and `bbox_loss_scale = 2 − gt_w·gt_h/(stride·nG)²`. -/
theorem claim_C7_theorem (T : TrigOps) (anchors : List Anchor3) (cfg : BTCfg)
    (predBoxes : Idx → B5) (predCls : Idx → List ℚ) (targets : List TRow)
    (hdist : targets.Pairwise
      (fun t1 t2 => keyOf T anchors cfg t1 ≠ keyOf T anchors cfg t2))
    (t : TRow) (ht : t ∈ targets) :
    (build_targets T anchors cfg predBoxes predCls targets).skew_iou
        (keyOf T anchors cfg t) =
      T.rexp (1 - (ciouPointwise T (predBoxes (keyOf T anchors cfg t)) (tbox cfg t)).1) - 1 ∧
    (build_targets T anchors cfg predBoxes predCls targets).ciou_loss
        (keyOf T anchors cfg t) =
      (2 - 1 * (tbox cfg t).w * (tbox cfg t).h / (cfg.stride * cfg.nG) ^ 2) *
        (1 - (ciouPointwise T (predBoxes (keyOf T anchors cfg t)) (tbox cfg t)).2) := by
  constructor
  · simpa only [build_targets] using
      foldl_updV_mem (keyOf T anchors cfg) (storedSkew T anchors cfg predBoxes)
        targets _ t ht hdist
  · simpa only [build_targets] using
      foldl_updV_mem (keyOf T anchors cfg) (storedCiou T anchors cfg predBoxes)
        targets _ t ht hdist

/-- C7, witness for the amended theorem at the concrete single-target
assignment. -/
theorem claim_C7_witness :
    (build_targets trigEx cexAnchors cexCfg cexPredBoxes cexPredCls [cexTRow]).skew_iou
        (keyOf trigEx cexAnchors cexCfg cexTRow) =
      trigEx.rexp (1 - (ciouPointwise trigEx
        (cexPredBoxes (keyOf trigEx cexAnchors cexCfg cexTRow))
        (tbox cexCfg cexTRow)).1) - 1 ∧
    (build_targets trigEx cexAnchors cexCfg cexPredBoxes cexPredCls [cexTRow]).ciou_loss
        (keyOf trigEx cexAnchors cexCfg cexTRow) =
      (2 - 1 * (tbox cexCfg cexTRow).w * (tbox cexCfg cexTRow).h /
          (cexCfg.stride * cexCfg.nG) ^ 2) *
        (1 - (ciouPointwise trigEx
          (cexPredBoxes (keyOf trigEx cexAnchors cexCfg cexTRow))
          (tbox cexCfg cexTRow)).2) :=
  claim_C7_theorem trigEx cexAnchors cexCfg cexPredBoxes cexPredCls [cexTRow]
    (List.pairwise_singleton _ _) cexTRow (List.mem_singleton.mpr rfl)

/-- C8.  The `obj_mask` and `noobj_mask` tensors returned by target
assignment are disjoint at every cell, for every input. -/
theorem claim_C8_theorem (T : TrigOps) (anchors : List Anchor3) (cfg : BTCfg)
    (predBoxes : Idx → B5) (predCls : Idx → List ℚ) (targets : List TRow) (p : Idx) :
    ((build_targets T anchors cfg predBoxes predCls targets).obj_mask p &&
      (build_targets T anchors cfg predBoxes predCls targets).noobj_mask p) = false := by
  simp only [build_targets]
  rw [foldl_updTrue_eq]
  cases hany : targets.any (fun t => decide (keyOf T anchors cfg t = p)) with
  | false => simp [hany]
  | true =>
    simp only [Bool.false_or, hany, Bool.true_and]
    apply noobj_fold_preserve
    rw [foldl_updFalse_eq]
    simp [hany]

/-- C9.  With an empty ground-truth list, the regression and
classification terms are identically zero and the total loss is exactly
the scaled no-object confidence term (the focal loss over all cells,
whose `noobj_mask` is everywhere true and whose confidence target is
everywhere zero). -/
theorem claim_C9_theorem (T : TrigOps) (hyp : LossHyp) (anchors : List Anchor3) (cfg : BTCfg)
    (predBoxes : Idx → B5) (predCls : Idx → List ℚ) (predConf : Idx → ℚ) :
    computeLoss T hyp anchors cfg predBoxes predCls predConf [] =
      { reg_loss := 0
        conf_loss := hyp.lambda_conf_scale *
          meanQ ((allCells cfg).map (fun p => focalElem T (predConf p) 0))
        cls_loss := 0
        loss := hyp.lambda_conf_scale *
          meanQ ((allCells cfg).map (fun p => focalElem T (predConf p) 0)) } := by
  simp only [computeLoss, build_targets, List.foldl_nil, List.isEmpty_nil, if_true,
    List.filter_cons]
  simp [LossOut.mk.injEq, List.filter_true, mul_zero]

end RYolo
